import Mathlib

/-!
Verification of the Boston Housing XGBoost deployment pipeline.

The pipeline loads the 506-row Boston Housing table, splits it twice with
`sklearn.model_selection.train_test_split` (test_size = 0.33 both times, so
test = first split's held-out part and validation = second split's held-out
part), serializes the train and validation subsets with
`pd.concat([Y, X], axis=1).to_csv(path, header=False, index=False)` after
creating the data directory with `os.makedirs`, sends the test rows to a
deployed endpoint, and parses the comma-delimited response with
`np.fromstring(resp, sep=',')`.

The embedding below models rows as list elements, the unseeded shuffle done
inside `train_test_split` as an arbitrary permutation hypothesis, files as
lists of characters, and the local filesystem as an explicit record of
directories and files.
-/

namespace BostonDeploy

/-! ## Splitter (`sklearn.model_selection.train_test_split`) -/

/-- Number of rows placed in the held-out part by `train_test_split`:
scikit-learn's `_validate_shuffle_split` computes `n_test = ceil(test_size * n)`
and `n_train = n - n_test`. -/
def nTest (r : ℚ) (n : ℕ) : ℕ := ⌈r * (n : ℚ)⌉₊

/-- `train_test_split(..., test_size=r)`: the library draws an unseeded random
permutation of the rows (modelled by taking the already-shuffled list
`shuffled` as input), uses the first `nTest` shuffled rows as the held-out
(test) part and the remaining rows as the kept (train) part.
Returns `(kept, heldOut)`, matching the `X_train, X_test` output order. -/
def trainTestSplit (r : ℚ) (shuffled : List α) : List α × List α :=
  (shuffled.drop (nTest r shuffled.length), shuffled.take (nTest r shuffled.length))

/-- The notebook's two-stage split: first `train_test_split(X, Y, test_size=0.33)`
separates the test set, then a second `train_test_split(..., test_size=0.33)`
on the remainder separates validation from train.  `perm1` is the shuffle of
the full dataset used by the first call and `perm2` the shuffle of the
remainder used by the second call.  Returns `(train, validation, test)`. -/
def splitter (r1 r2 : ℚ) (perm1 perm2 : List α) : List α × List α × List α :=
  ((trainTestSplit r2 perm2).1, (trainTestSplit r2 perm2).2, (trainTestSplit r1 perm1).2)

/-- Claim C1: for every input dataset (with distinct records, as the rows of an
indexed dataframe are) and every pair of split ratios in (0,1), the two-stage
split produces three pairwise-disjoint subsets whose concatenation is a
permutation of the full input dataset (hence their union as unordered sets is
the full dataset) and whose sizes sum exactly to the input's size. -/
theorem c1_split_partition {α : Type} (data perm1 perm2 tr va te : List α) (r1 r2 : ℚ)
    (hnd : data.Nodup) (h1 : perm1.Perm data)
    (h2 : perm2.Perm (trainTestSplit r1 perm1).1)
    (hr1 : 0 < r1 ∧ r1 < 1) (hr2 : 0 < r2 ∧ r2 < 1)
    (heq : splitter r1 r2 perm1 perm2 = (tr, va, te)) :
    tr.Disjoint va ∧ tr.Disjoint te ∧ va.Disjoint te ∧
      (tr ++ va ++ te).Perm data ∧
      tr.length + va.length + te.length = data.length := by
  simp only [splitter, trainTestSplit, Prod.mk.injEq] at heq
  obtain ⟨htr, hva, hte⟩ := heq
  subst htr hva hte
  have h2' : perm2.Perm (perm1.drop (nTest r1 perm1.length)) := h2
  have hnd1 : perm1.Nodup := h1.nodup_iff.mpr hnd
  have hndr : (perm1.drop (nTest r1 perm1.length)).Nodup :=
    (List.drop_sublist _ _).nodup hnd1
  have hnd2 : perm2.Nodup := h2'.nodup_iff.mpr hndr
  have hdj1 := List.disjoint_take_drop hnd1 (le_refl (nTest r1 perm1.length))
  have hdj2 := List.disjoint_take_drop hnd2 (le_refl (nTest r2 perm2.length))
  have e1 : (perm1.drop (nTest r1 perm1.length) ++
      perm1.take (nTest r1 perm1.length)).Perm perm1 := by
    have h := @List.perm_append_comm _ (perm1.drop (nTest r1 perm1.length))
      (perm1.take (nTest r1 perm1.length))
    rwa [List.take_append_drop] at h
  have e2 : (perm2.drop (nTest r2 perm2.length) ++
      perm2.take (nTest r2 perm2.length)).Perm perm2 := by
    have h := @List.perm_append_comm _ (perm2.drop (nTest r2 perm2.length))
      (perm2.take (nTest r2 perm2.length))
    rwa [List.take_append_drop] at h
  have hperm : ((perm2.drop (nTest r2 perm2.length) ++ perm2.take (nTest r2 perm2.length)) ++
      perm1.take (nTest r1 perm1.length)).Perm data := by
    refine (((e2.append_right _).trans ?_).trans e1).trans h1
    exact h2'.append_right _
  refine ⟨?_, ?_, ?_, hperm, ?_⟩
  · exact List.disjoint_symm hdj2
  · intro a hatr hate
    exact hdj1 hate (h2'.subset (List.drop_subset _ _ hatr))
  · intro a hava hate
    exact hdj1 hate (h2'.subset (List.take_subset _ _ hava))
  · have hl := hperm.length_eq
    simp only [List.length_append] at hl
    omega

/-- A concrete six-row dataset used to witness the splitter claims. -/
def sixRows : List ℕ := [0, 1, 2, 3, 4, 5]

/-- The concrete two-stage split of `sixRows` with both ratios 1/2 and
identity shuffles. -/
def sixSplit : List ℕ × List ℕ × List ℕ :=
  splitter (1/2) (1/2) sixRows (trainTestSplit (1/2) sixRows).1

/-- Witness for C1 at a concrete input: the six-row dataset `[0,1,2,3,4,5]`
with both ratios 1/2 and identity shuffles. -/
theorem c1_split_partition_witness :
    sixRows.Nodup ∧ sixSplit.1.Disjoint sixSplit.2.1 ∧
      (sixSplit.1 ++ sixSplit.2.1 ++ sixSplit.2.2).Perm sixRows := by
  have h := c1_split_partition sixRows sixRows (trainTestSplit (1/2) sixRows).1
    sixSplit.1 sixSplit.2.1 sixSplit.2.2 (1/2) (1/2)
    (by decide) (List.Perm.refl _) (List.Perm.refl _)
    ⟨by norm_num, by norm_num⟩ ⟨by norm_num, by norm_num⟩ rfl
  exact ⟨by decide, h.1, h.2.2.2.1⟩

/-- Claim C2: with the fixed 506-row dataset and ratios 0.33 and 0.33, the
split yields 227 train rows, 112 validation rows and 167 test rows
(`167 = ⌈0.33 * 506⌉`, `112 = ⌈0.33 * 339⌉`, `227 = 339 - 112`). -/
theorem c2_split_sizes {α : Type} (data perm1 perm2 : List α)
    (h1 : perm1.Perm data) (h2 : perm2.Perm (trainTestSplit (33/100) perm1).1)
    (hlen : data.length = 506) :
    (splitter (33/100) (33/100) perm1 perm2).1.length = 227 ∧
      (splitter (33/100) (33/100) perm1 perm2).2.1.length = 112 ∧
      (splitter (33/100) (33/100) perm1 perm2).2.2.length = 167 := by
  have hl1 : perm1.length = 506 := h1.length_eq.trans hlen
  have hn1 : nTest (33/100) 506 = 167 := by
    rw [nTest, Nat.ceil_eq_iff (by norm_num)]
    norm_num
  have hl2 : perm2.length = 339 := by
    have h := h2.length_eq
    simp only [trainTestSplit, List.length_drop, hl1, hn1] at h
    omega
  have hn2 : nTest (33/100) 339 = 112 := by
    rw [nTest, Nat.ceil_eq_iff (by norm_num)]
    norm_num
  refine ⟨?_, ?_, ?_⟩
  · simp [splitter, trainTestSplit, hl2, hn2]
  · simp [splitter, trainTestSplit, hl2, hn2]
  · simp [splitter, trainTestSplit, hl1, hn1]

/-- Witness for C2: the identity shuffles on the 506-row index list. -/
theorem c2_split_sizes_witness :
    (splitter (33/100) (33/100) (List.range 506)
        ((trainTestSplit (33/100) (List.range 506)).1)).1.length = 227 ∧
      (splitter (33/100) (33/100) (List.range 506)
        ((trainTestSplit (33/100) (List.range 506)).1)).2.1.length = 112 ∧
      (splitter (33/100) (33/100) (List.range 506)
        ((trainTestSplit (33/100) (List.range 506)).1)).2.2.length = 167 :=
  c2_split_sizes (List.range 506) (List.range 506)
    ((trainTestSplit (33/100) (List.range 506)).1)
    (List.Perm.refl _) (List.Perm.refl _) (List.length_range 506)

/-! ## Local Writer (`pd.concat([Y, X], axis=1).to_csv(path, header=False, index=False)`) -/

/-- A rendered numeric field of a delimited file. -/
abbrev Field := List Char

/-- One row of `pd.concat([Y, X], axis=1)`: the target value followed by the
feature values of one Housing Record, each already rendered as text. -/
structure Record where
  target : Field
  features : List Field
deriving DecidableEq

/-- The comma-delimited line `to_csv` writes for one record: target first,
then the features, in dataframe column order. -/
def recordLine (r : Record) : List Char :=
  [','].intercalate (r.target :: r.features)

/-- The whole file written by `to_csv(header=False, index=False)`: one
newline-terminated line per record, no header line, no index column. -/
def serializeRecords (rs : List Record) : List Char :=
  (rs.map (fun r => recordLine r ++ ['\n'])).flatten

/-- Splitting file content back into its newline-terminated lines. -/
def fileLines (s : List Char) : List (List Char) :=
  (s.splitOn '\n').dropLast

/-- Reading one delimited line back into a record: the first comma-separated
field is the target, the remaining fields are the features. -/
def parseLine (l : List Char) : Record :=
  match l.splitOn ',' with
  | [] => ⟨[], []⟩
  | t :: fs => ⟨t, fs⟩

/-- Re-reading a whole delimited file. -/
def readRecords (s : List Char) : List Record :=
  (fileLines s).map parseLine

/-- A rendered numeric field contains neither the comma separator nor a
newline. -/
def goodField (f : Field) : Prop := ',' ∉ f ∧ '\n' ∉ f

/-- All fields of the record are separator-free. -/
def goodRecord (r : Record) : Prop :=
  goodField r.target ∧ ∀ f ∈ r.features, goodField f

instance (f : Field) : Decidable (goodField f) := by
  unfold goodField
  infer_instance

instance (r : Record) : Decidable (goodRecord r) := by
  unfold goodRecord
  infer_instance

/-- An element that differs from the separator and lies in none of the parts
does not appear in the intercalation of the parts. -/
theorem not_mem_intercalate {α : Type} {a x : α} :
    ∀ ls : List (List α), a ≠ x → (∀ l ∈ ls, a ∉ l) → a ∉ [x].intercalate ls
  | [], _, _ => by simp [List.intercalate]
  | [hd], _, h => by simpa [List.intercalate] using h hd (by simp)
  | hd :: hd2 :: tl2, hax, h => by
    have e : [x].intercalate (hd :: hd2 :: tl2) = hd ++ x :: [x].intercalate (hd2 :: tl2) := by
      simp [List.intercalate]
    rw [e]
    intro hmem
    rcases List.mem_append.mp hmem with h1 | h1
    · exact h hd (by simp) h1
    · rcases List.mem_cons.mp h1 with h2 | h2
      · exact hax h2
      · exact not_mem_intercalate (hd2 :: tl2) hax (fun l hl => h l (by simp [hl])) h2

/-- The line of a separator-free record contains no newline. -/
theorem newline_not_mem_recordLine (r : Record) (h : goodRecord r) :
    '\n' ∉ recordLine r :=
  not_mem_intercalate _ (by decide) (by
    intro l hl
    rcases List.mem_cons.mp hl with rfl | hf
    · exact h.1.2
    · exact (h.2 l hf).2)

/-- Splitting the serialized file on newlines recovers exactly the record
lines, in order. -/
theorem fileLines_serializeRecords (rs : List Record) (h : ∀ r ∈ rs, goodRecord r) :
    fileLines (serializeRecords rs) = rs.map recordLine := by
  induction rs with
  | nil => rfl
  | cons r rs ih =>
    have hline : '\n' ∉ recordLine r := newline_not_mem_recordLine r (h r (by simp))
    have e : serializeRecords (r :: rs) = recordLine r ++ '\n' :: serializeRecords rs := by
      simp [serializeRecords]
    have key : (serializeRecords (r :: rs)).splitOn '\n' =
        recordLine r :: (serializeRecords rs).splitOn '\n' := by
      rw [e]
      exact List.splitOnP_first (fun c => c == '\n') (recordLine r)
        (fun x hx => by simp only [beq_iff_eq]; rintro rfl; exact hline hx)
        '\n' rfl (serializeRecords rs)
    have ih' := ih (fun r hr => h r (by simp [hr]))
    have hne : (serializeRecords rs).splitOn '\n' ≠ [] := List.splitOnP_ne_nil _ _
    unfold fileLines at ih' ⊢
    rw [key, List.dropLast_cons_of_ne_nil hne, ih', List.map_cons]

/-- Parsing the line written for a separator-free record recovers the
record. -/
theorem parseLine_recordLine (r : Record) (h : goodRecord r) :
    parseLine (recordLine r) = r := by
  have e : (recordLine r).splitOn ',' = r.target :: r.features := by
    rw [recordLine]
    refine List.splitOn_intercalate (r.target :: r.features) ',' ?_ (by simp)
    intro l hl
    rcases List.mem_cons.mp hl with rfl | hf
    · exact h.1.1
    · exact (h.2 l hf).1
  unfold parseLine
  rw [e]

/-- Claim C3: for every record set whose rendered fields are separator-free
and have 13 features per record, the written file has exactly one
comma-delimited line per record (same count, same order), each line splits
into the record's target followed by its 13 features (14 fields in all), and
the file holds nothing else: no header line, no index column. -/
theorem c3_file_format (rs : List Record) (hg : ∀ r ∈ rs, goodRecord r)
    (h13 : ∀ r ∈ rs, r.features.length = 13) :
    (fileLines (serializeRecords rs)).length = rs.length ∧
      (fileLines (serializeRecords rs)).map (fun l => l.splitOn ',') =
        rs.map (fun r => r.target :: r.features) ∧
      ∀ l ∈ fileLines (serializeRecords rs), (l.splitOn ',').length = 14 := by
  have hfl := fileLines_serializeRecords rs hg
  have hsplit : ∀ r ∈ rs, (recordLine r).splitOn ',' = r.target :: r.features := by
    intro r hr
    rw [recordLine]
    refine List.splitOn_intercalate (r.target :: r.features) ',' ?_ (by simp)
    intro l hl
    rcases List.mem_cons.mp hl with rfl | hf
    · exact (hg r hr).1.1
    · exact ((hg r hr).2 l hf).1
  refine ⟨by rw [hfl]; simp, ?_, ?_⟩
  · rw [hfl, List.map_map]
    refine List.map_congr_left ?_
    intro r hr
    simp [Function.comp, hsplit r hr]
  · intro l hl
    rw [hfl] at hl
    obtain ⟨r, hr, rfl⟩ := List.mem_map.mp hl
    rw [hsplit r hr]
    simp [h13 r hr]

/-- A concrete record used to witness the writer claims: target "24",
thirteen single-character features. -/
def sampleRecord : Record := ⟨['2', '4'], List.replicate 13 ['0']⟩

/-- Witness for C3 at the one-record set `[sampleRecord]`. -/
theorem c3_file_format_witness :
    (fileLines (serializeRecords [sampleRecord])).length = 1 ∧
      (fileLines (serializeRecords [sampleRecord])).map (fun l => l.splitOn ',') =
        ([sampleRecord].map (fun r => r.target :: r.features)) ∧
      ∀ l ∈ fileLines (serializeRecords [sampleRecord]), (l.splitOn ',').length = 14 := by
  have h := c3_file_format [sampleRecord] (by decide) (by decide)
  simpa using h

/-- Claim C4: writing a separator-free record set and re-reading the file
reproduces the record list exactly (in particular the same multiset of
records, with the target-first field ordering preserved). -/
theorem c4_roundtrip (rs : List Record) (hg : ∀ r ∈ rs, goodRecord r) :
    readRecords (serializeRecords rs) = rs := by
  rw [readRecords, fileLines_serializeRecords rs hg, List.map_map]
  have h : ∀ r ∈ rs, (parseLine ∘ recordLine) r = id r := fun r hr =>
    parseLine_recordLine r (hg r hr)
  rw [List.map_congr_left h, List.map_id]

/-- Witness for C4 at the one-record set `[sampleRecord]`. -/
theorem c4_roundtrip_witness :
    readRecords (serializeRecords [sampleRecord]) = [sampleRecord] :=
  c4_roundtrip [sampleRecord] (by decide)

/-! ## Feature/target pairing (`train_test_split(X, Y, ...)` + `pd.concat([Y, X], axis=1)`)

`train_test_split(X_bos_pd, Y_bos_pd, test_size=0.33)` applies one shared
index permutation to both dataframes, and `pd.concat([Y, X], axis=1)` pairs
rows positionally (their index labels agree because they came from the same
split).  We model row selection by a shared index list. -/

/-- Row lookup by a list of positions (`df.iloc[idxs]`); out-of-range
indices select nothing. -/
def gather {α : Type} (l : List α) (idxs : List ℕ) : List α :=
  idxs.filterMap (fun i => l[i]?)

/-- Gathering two same-length lists with one shared index list and then
pairing them positionally is the same as gathering the paired list. -/
theorem zip_gather {α β : Type} (Y : List α) (X : List β) (hlen : Y.length = X.length) :
    ∀ idxs : List ℕ, (gather Y idxs).zip (gather X idxs) = gather (Y.zip X) idxs
  | [] => rfl
  | i :: is => by
    have ih := zip_gather Y X hlen is
    simp only [gather, List.filterMap_cons]
    cases hY : Y[i]? with
    | none =>
      have hX : X[i]? = none := by
        rw [List.getElem?_eq_none_iff] at hY ⊢
        omega
      have hZ : (Y.zip X)[i]? = none := by
        rw [List.getElem?_eq_none_iff] at hY ⊢
        rw [List.length_zip]
        omega
      simp only [hX, hZ]
      exact ih
    | some y =>
      have hiY : i < Y.length := by
        by_contra hc
        rw [List.getElem?_eq_none_iff.mpr (by omega)] at hY
        cases hY
      have hiX : i < X.length := hlen ▸ hiY
      have hX : X[i]? = some X[i] := List.getElem?_eq_getElem hiX
      have hZ : (Y.zip X)[i]? = some (y, X[i]) :=
        List.getElem?_zip_eq_some.mpr ⟨hY, hX⟩
      simp only [hX, hZ, List.zip_cons_cons]
      exact congrArg _ ih

/-- Every row selected by `gather` is a row of the original list. -/
theorem gather_mem {α : Type} (l : List α) (idxs : List ℕ) :
    ∀ a ∈ gather l idxs, a ∈ l := by
  intro a ha
  obtain ⟨i, _, hi⟩ := List.mem_filterMap.mp ha
  exact List.getElem?_mem hi

/-- Claim C5: throughout the two-stage split and the target-first
concatenation, features and target stay paired.  Every (target, feature-row)
pair appearing in the train part or in the validation part is one of the
original dataset's (target, feature-row) pairs: no row mixes the target of
one record with the features of another. -/
theorem c5_pairing (Y : List Field) (X : List (List Field)) (r1 r2 : ℚ)
    (perm1 perm2 : List ℕ) (hlen : Y.length = X.length)
    (h1 : perm1.Perm (List.range Y.length))
    (h2 : perm2.Perm (trainTestSplit r1 perm1).1) :
    (∀ p ∈ (gather Y (trainTestSplit r2 perm2).1).zip (gather X (trainTestSplit r2 perm2).1),
        p ∈ Y.zip X) ∧
      (∀ p ∈ (gather Y (trainTestSplit r2 perm2).2).zip (gather X (trainTestSplit r2 perm2).2),
        p ∈ Y.zip X) := by
  constructor
  · intro p hp
    rw [zip_gather Y X hlen] at hp
    exact gather_mem _ _ p hp
  · intro p hp
    rw [zip_gather Y X hlen] at hp
    exact gather_mem _ _ p hp

/-- Witness for C5 on a concrete four-row dataset with ratios 1/2: the single
train-part pair is one of the original (target, feature-row) pairs. -/
theorem c5_pairing_witness :
    ((['4'] : Field), ([['d']] : List Field)) ∈
      ([['1'], ['2'], ['3'], ['4']] : List Field).zip
        ([[['a']], [['b']], [['c']], [['d']]] : List (List Field)) := by
  have hn4 : nTest (1/2) 4 = 2 := by
    rw [nTest, Nat.ceil_eq_iff (by norm_num)]
    norm_num
  have hn2 : nTest (1/2) 2 = 1 := by
    rw [nTest, Nat.ceil_eq_iff (by norm_num)]
    norm_num
  have e1 : trainTestSplit (1/2) ([0, 1, 2, 3] : List ℕ) = ([2, 3], [0, 1]) := by
    rw [trainTestSplit, show ([0, 1, 2, 3] : List ℕ).length = 4 from rfl, hn4]
    rfl
  have e2 : trainTestSplit (1/2) ([2, 3] : List ℕ) = ([3], [2]) := by
    rw [trainTestSplit, show ([2, 3] : List ℕ).length = 2 from rfl, hn2]
    rfl
  have h2 : ([2, 3] : List ℕ).Perm (trainTestSplit (1/2) ([0, 1, 2, 3] : List ℕ)).1 := by
    rw [e1]
  refine (c5_pairing [['1'], ['2'], ['3'], ['4']] [[['a']], [['b']], [['c']], [['d']]]
    (1/2) (1/2) [0, 1, 2, 3] [2, 3] rfl (by decide) h2).1 (['4'], [['d']]) ?_
  rw [show (trainTestSplit (1/2) ([2, 3] : List ℕ)).1 = [3] from by rw [e2]]
  decide

/-! ## Local filesystem (`os.path.exists` / `os.makedirs` / writing) -/

/-- A minimal filesystem: the existing directories and a store of files
keyed by (directory, filename), most recent write first. -/
structure FS where
  dirs : List (List Char)
  files : List ((List Char × List Char) × List Char)
deriving DecidableEq

/-- `if not os.path.exists(data_dir): os.makedirs(data_dir)`. -/
def ensureDir (fs : FS) (d : List Char) : FS :=
  if d ∈ fs.dirs then fs else ⟨d :: fs.dirs, fs.files⟩

/-- Writing a file succeeds exactly when the target directory exists. -/
def fsWrite (fs : FS) (d name content : List Char) : Option FS :=
  if d ∈ fs.dirs then some ⟨fs.dirs, ((d, name), content) :: fs.files⟩ else none

/-- Reading a file back: the most recently written content at that path. -/
def fsRead (fs : FS) (d name : List Char) : Option (List Char) :=
  (fs.files.find? (fun e => e.1 == (d, name))).map (fun e => e.2)

/-- The Local Writer: ensure the data directory exists (creating it when
absent), then write the serialized record set to `<dir>/<name>`. -/
def localWriter (fs : FS) (d name : List Char) (rs : List Record) : Option FS :=
  fsWrite (ensureDir fs d) d name (serializeRecords rs)

/-- Claim C9: even when the target directory is initially missing, the Local
Writer creates it first, so the write succeeds and the file holds the
serialized records. -/
theorem c9_creates_missing_dir (fs : FS) (d name : List Char) (rs : List Record)
    (h : d ∉ fs.dirs) :
    ∃ fs', localWriter fs d name rs = some fs' ∧
      fsRead fs' d name = some (serializeRecords rs) := by
  refine ⟨⟨d :: fs.dirs, ((d, name), serializeRecords rs) :: fs.files⟩, ?_, ?_⟩
  · rw [localWriter, ensureDir, if_neg h, fsWrite]
    simp
  · rw [fsRead]
    simp

/-- Witness for C9: an empty filesystem, where the data directory does not
exist yet. -/
theorem c9_creates_missing_dir_witness :
    ∃ fs', localWriter ⟨[], []⟩ ['d'] ['t'] [sampleRecord] = some fs' ∧
      fsRead fs' ['d'] ['t'] = some (serializeRecords [sampleRecord]) :=
  c9_creates_missing_dir ⟨[], []⟩ ['d'] ['t'] [sampleRecord] (by simp)

/-- Claim C10: writing a record set of zero rows succeeds (no error) and
produces an empty file at the target path. -/
theorem c10_empty_write (fs : FS) (d name : List Char) :
    ∃ fs', localWriter fs d name [] = some fs' ∧ fsRead fs' d name = some [] := by
  have hd : d ∈ (ensureDir fs d).dirs := by
    by_cases h : d ∈ fs.dirs <;> simp [ensureDir, h]
  refine ⟨⟨(ensureDir fs d).dirs, ((d, name), []) :: (ensureDir fs d).files⟩, ?_, ?_⟩
  · rw [localWriter]
    show fsWrite (ensureDir fs d) d name (serializeRecords []) = _
    rw [show serializeRecords [] = [] from rfl, fsWrite, if_pos hd]
  · rw [fsRead]
    simp

/-! ## Inference Client (`xgb_predictor.predict` + `np.fromstring(resp, sep=',')`) -/

/-- Characters that `np.fromstring` can consume as part of one decimal
floating-point token. -/
def numChar (c : Char) : Bool :=
  c.isDigit || c == '.' || c == '-' || c == '+' || c == 'e' || c == 'E'

/-- A field that reads as one number: nonempty and made of numeric
characters only. -/
def isNumericField (f : Field) : Bool :=
  !f.isEmpty && f.all numChar

/-- `np.fromstring(resp, sep=',')`: split the response on commas and read
numbers from the front, stopping silently at the first token that is not
numeric.  The source performs no error handling and no count check, so this
function is total: it always returns the (possibly short) list of parsed
fields. -/
def parseResponse (s : List Char) : List Field :=
  (s.splitOn ',').takeWhile isNumericField

/-- Modelled from the spec: the remote inference endpoint is external to the
repository (only its caller `xgb_predictor.predict` is in the source).  Per
the spec, the response is "a delimited-text payload of one numeric prediction
per input row, same order"; `model` is the per-row prediction function. -/
def endpointRespond {α : Type} (model : α → Field) (rows : List α) : List Char :=
  [','].intercalate (rows.map model)

/-- The Inference Client: submit the rows, parse the delimited response. -/
def invokeEndpoint {α : Type} (model : α → Field) (rows : List α) : List Field :=
  parseResponse (endpointRespond model rows)

/-- A numeric field cannot contain the comma separator. -/
theorem comma_not_mem_of_numeric (f : Field) (h : isNumericField f = true) :
    ',' ∉ f := by
  intro hm
  simp only [isNumericField, Bool.and_eq_true] at h
  exact absurd (List.all_eq_true.mp h.2 ',' hm) (by decide)

/-- Claim C6: for every batch of rows whose predictions are well-formed
numeric fields, the parsed Prediction Vector is exactly the per-row
predictions in request order — in particular it has exactly one entry per
submitted row, and the i-th entry is the prediction for the i-th row. -/
theorem c6_order_preserved {α : Type} (model : α → Field) (rows : List α)
    (hm : ∀ row ∈ rows, isNumericField (model row) = true) :
    invokeEndpoint model rows = rows.map model ∧
      (invokeEndpoint model rows).length = rows.length := by
  have hmain : invokeEndpoint model rows = rows.map model := by
    by_cases hrows : rows = []
    · subst hrows
      rfl
    · have hne : rows.map model ≠ [] := by simpa using hrows
      have hsplit : (endpointRespond model rows).splitOn ',' = rows.map model := by
        rw [endpointRespond]
        refine List.splitOn_intercalate (rows.map model) ',' ?_ hne
        intro l hl
        obtain ⟨row, hrow, rfl⟩ := List.mem_map.mp hl
        exact comma_not_mem_of_numeric _ (hm row hrow)
      rw [invokeEndpoint, parseResponse, hsplit]
      refine List.takeWhile_eq_self_iff.mpr ?_
      intro l hl
      obtain ⟨row, hrow, rfl⟩ := List.mem_map.mp hl
      exact hm row hrow
  exact ⟨hmain, by rw [hmain, List.length_map]⟩

/-- Witness for C6: three rows with a constant single-digit prediction. -/
theorem c6_order_preserved_witness :
    invokeEndpoint (fun _ : ℕ => ['1']) [0, 1, 2] = [['1'], ['1'], ['1']] ∧
      (invokeEndpoint (fun _ : ℕ => ['1']) [0, 1, 2]).length = 3 := by
  have h := c6_order_preserved (fun _ : ℕ => ['1']) [0, 1, 2] (by decide)
  simpa using h

/-- A malformed endpoint response for a two-row request: the second
comma-separated token is not numeric. -/
def malformedResponse : List Char := ['1', '.', '0', ',', 'j', 'u', 'n', 'k']

/-- Counterexample to claim C7: on this malformed response — which does not
parse as the expected two numeric fields — the client does not fail at all:
the `np.fromstring` call silently returns a one-entry Prediction Vector, and
the source contains no error path (no `InferenceError`, no count check), so a
value is returned on every response. -/
theorem c7_counterexample :
    parseResponse malformedResponse = [['1', '.', '0']] ∧
      (parseResponse malformedResponse).length ≠ 2 := by decide

/-- Claim C7 as amended: on a response whose fields are a run of numeric
fields followed by a malformed token, the client does not raise an
`InferenceError` (it has none); it silently returns exactly the numeric
fields before the malformed token, which can be fewer entries than submitted
rows. -/
theorem c7_amended_truncation (good : List Field) (bad : Field) (rest : List Field)
    (hg : ∀ f ∈ good, isNumericField f = true) (hb : isNumericField bad = false)
    (hnc : ∀ f ∈ good ++ bad :: rest, ',' ∉ f) :
    parseResponse ([','].intercalate (good ++ bad :: rest)) = good := by
  have hsplit : ([','].intercalate (good ++ bad :: rest)).splitOn ',' =
      good ++ bad :: rest :=
    List.splitOn_intercalate (good ++ bad :: rest) ',' hnc (by simp)
  rw [parseResponse, hsplit, List.takeWhile_append_of_pos hg,
    List.takeWhile_cons_of_neg (by simp [hb]), List.append_nil]

/-- Witness for the amended C7: one numeric field, then a malformed one. -/
theorem c7_amended_truncation_witness :
    parseResponse ([','].intercalate [['1'], ['j'], ['2']]) = [['1']] := by
  have h := c7_amended_truncation [['1']] ['j'] [['2']] (by decide) (by decide) (by decide)
  simpa using h

/-! ## Endpoint Teardown (`xgb_predictor.delete_endpoint()`) -/

/-- Lifecycle states of the deployed endpoint handle. -/
inductive EndpointStatus where
  | inService : EndpointStatus
  | deleted : EndpointStatus
deriving DecidableEq

/-- Modelled from the spec: `delete_endpoint` is SDK/remote-platform code
external to this repository (only its call site appears in the source).  Per
the spec, teardown requests termination of the endpoint, and "calling
teardown on an already-removed handle should be treated as a no-op success".
The Boolean records that the call returned successfully (did not raise). -/
def deleteEndpoint : EndpointStatus → EndpointStatus × Bool
  | EndpointStatus.inService => (EndpointStatus.deleted, true)
  | EndpointStatus.deleted => (EndpointStatus.deleted, true)

/-- Claim C8: the first teardown removes the endpoint, and a second teardown
on the now-absent handle is a no-op success (it does not raise). -/
theorem c8_teardown_idempotent (s : EndpointStatus) :
    (deleteEndpoint s).1 = EndpointStatus.deleted ∧
      deleteEndpoint (deleteEndpoint s).1 = (EndpointStatus.deleted, true) := by
  cases s <;> exact ⟨rfl, rfl⟩

end BostonDeploy
